import Mathlib

/-!
Verification of the Markdown-post ingestion and rendering pipeline of the
go_blog repository (src/server.go and the unnamed sibling source file,
called V1 and V2 below).  Go strings are embedded as lists of characters;
the third-party collaborators (filesystem, YAML decoder, front-matter
parser, Markdown converter) are either explicit parameters of the
definitions or, where a claim needs their concrete behaviour, modelled
from the specification.
-/

/-- Go strings, embedded as lists of characters. -/
abbrev GoStr := List Char

/-- The front-matter delimiter substring searched for by
`strings.SplitN(string(content), "\n---\n", 2)` in `loadMarkdownPosts`. -/
def fmDelim : GoStr := '\n' :: '-' :: '-' :: '-' :: '\n' :: []

/-- A line consisting of exactly three hyphens (a front-matter delimiter line). -/
def dashes : GoStr := '-' :: '-' :: '-' :: []

/-- `leadsWith sep s` is true when `sep` is an initial run of `s`
(the prefix test used to locate the first occurrence of a separator,
as `strings.SplitN` does). -/
def leadsWith : GoStr → GoStr → Bool
  | [], _ => true
  | _ :: _, [] => false
  | a :: as, b :: bs => a == b && leadsWith as bs

/-- `splitFirst sep s` models Go `strings.SplitN(s, sep, 2)`:
`some (p, q)` when `s = p ++ sep ++ q` with `p` minimal
(Go returns the two-element slice `[p, q]`), `none` when `sep` does not
occur in `s` (Go returns the one-element slice `[s]`). -/
def splitFirst (sep : GoStr) : GoStr → Option (GoStr × GoStr)
  | [] => if leadsWith sep [] then some ([], []) else none
  | c :: rest =>
    if leadsWith sep (c :: rest) then some ([], (c :: rest).drop sep.length)
    else (splitFirst sep rest).map (fun pr => (c :: pr.1, pr.2))

/-- The lines of a string, split on the newline character
(used to state which lines of a document are delimiter lines). -/
def linesOf : GoStr → List GoStr
  | [] => [[]]
  | c :: rest =>
    if c = '\n' then [] :: linesOf rest
    else
      match linesOf rest with
      | [] => [[c]]
      | l :: ls => (c :: l) :: ls

/-! ## Data model (the `Author` and `PostData` structs)

`src/server.go` and the unnamed source file declare the same `PostData`
struct except for one difference: the unnamed file has a `Date` field
(yaml tag `Date`), `src/server.go` does not.  We embed both variants:
`PostDataV1` for `src/server.go`, `PostDataV2` for the unnamed file.
`template.HTML` is embedded as a plain string. -/

/-- The nested `Author` struct (yaml tags `name` and `email`). -/
structure Author where
  name : GoStr
  email : GoStr
deriving DecidableEq

/-- The `PostData` struct of `src/server.go` (note: no `Date` field). -/
structure PostDataV1 where
  Title : GoStr
  Slug : GoStr
  Description : GoStr
  Order : Int
  MetaDescription : GoStr
  MetaPropertyTitle : GoStr
  MetaPropertyDescription : GoStr
  MetaOgURL : GoStr
  Author : Author
  Content : GoStr
deriving DecidableEq

/-- The `PostData` struct of the unnamed source file (with a `Date` field). -/
structure PostDataV2 where
  Title : GoStr
  Slug : GoStr
  Date : GoStr
  Description : GoStr
  Order : Int
  MetaDescription : GoStr
  MetaPropertyTitle : GoStr
  MetaPropertyDescription : GoStr
  MetaOgURL : GoStr
  Author : Author
  Content : GoStr
deriving DecidableEq

/-- The zero value of `Author` (Go `var` initialisation). -/
def zeroAuthor : Author := { name := [], email := [] }

/-- The zero value of the `src/server.go` `PostData` (Go `var postData PostData`). -/
def zeroV1 : PostDataV1 :=
  { Title := [], Slug := [], Description := [], Order := 0
    MetaDescription := [], MetaPropertyTitle := [], MetaPropertyDescription := []
    MetaOgURL := [], Author := zeroAuthor, Content := [] }

/-- The zero value of the unnamed file's `PostData`. -/
def zeroV2 : PostDataV2 :=
  { Title := [], Slug := [], Date := [], Description := [], Order := 0
    MetaDescription := [], MetaPropertyTitle := [], MetaPropertyDescription := []
    MetaOgURL := [], Author := zeroAuthor, Content := [] }

/-! ## The per-file pipeline of `loadMarkdownPosts`

The YAML decoder (`yaml.Unmarshal`) and the Markdown converter
(`md.Convert`) are third-party collaborators; the listing pipeline is
embedded with both as explicit parameters (`unmarshal`, `convert`), each
returning `Except` with an error message, so the development covers both
`PostData` variants at once (the metadata type `M` is a parameter). -/

/-- The body of the `if/else` on `len(split) > 1` inside the `filepath.Walk`
callback of `loadMarkdownPosts` (identical in both source files):
split the raw content on the first occurrence of the bytes
`"\n---\n"`; when there are two parts, `yaml.Unmarshal` the first
(failure aborts) and `md.Convert` the second (failure aborts); when there
is a single part, convert the whole content with zero-valued metadata.
The result pairs the decoded metadata with the `Content` field value. -/
def processMd {M : Type} (unmarshal : GoStr → Except GoStr M)
    (convert : GoStr → Except GoStr GoStr) (zero : M)
    (content : GoStr) : Except GoStr (M × GoStr) :=
  match splitFirst fmDelim content with
  | some (fm, body) =>
    match unmarshal fm with
    | .error e => .error e
    | .ok m =>
      match convert body with
      | .error e => .error e
      | .ok html => .ok (m, html)
  | none =>
    match convert content with
    | .error e => .error e
    | .ok html => .ok (zero, html)

/-- One invocation of the `filepath.Walk` callback in `loadMarkdownPosts`:
the visited entry's base name (`info.Name()`), whether it is a directory
(`info.IsDir()`), the error `filepath.Walk` passed to the callback, and
the outcome of `os.ReadFile` on the entry's path. -/
structure WalkEntry where
  name : GoStr
  isDir : Bool
  walkErr : Option GoStr
  content : Except GoStr GoStr

/-- `strings.HasSuffix(s, suffix)`. -/
def hasSuffix (s suffix : GoStr) : Bool := leadsWith suffix.reverse s.reverse

/-- The `.md` extension checked by `strings.HasSuffix(info.Name(), ".md")`. -/
def mdExt : GoStr := '.' :: 'm' :: 'd' :: []

/-- The walk-callback filter `!info.IsDir() && strings.HasSuffix(info.Name(), ".md")`. -/
def isMdFile (e : WalkEntry) : Bool := !e.isDir && hasSuffix e.name mdExt

/-- `loadMarkdownPosts` over the sequence of entries visited by
`filepath.Walk(dir, ...)`, in traversal order (identical logic in both
source files).  A non-nil error handed to the callback, a failed read, a
failed YAML decode or a failed Markdown conversion each abort the walk
with that error, and `loadMarkdownPosts` then returns `(nil, err)`,
embedded as `Except.error`; otherwise every processed `.md` file appends
one post to the returned slice. -/
def loadMarkdownPosts {M : Type} (unmarshal : GoStr → Except GoStr M)
    (convert : GoStr → Except GoStr GoStr) (zero : M) :
    List WalkEntry → Except GoStr (List (M × GoStr))
  | [] => .ok []
  | e :: es =>
    match e.walkErr with
    | some err => .error err
    | none =>
      if isMdFile e then
        match e.content with
        | .error err => .error err
        | .ok content =>
          match processMd unmarshal convert zero content with
          | .error err => .error err
          | .ok p => (loadMarkdownPosts unmarshal convert zero es).map (p :: ·)
      else loadMarkdownPosts unmarshal convert zero es

/-! ## The single-post HTTP handler (`PostHandler`)

The two source files differ here.  In `src/server.go` (V1) the handler
calls `readAndParse` (which runs `sl.Read` and `frontmatter.Parse` and
returns the first error undistinguished) and answers 404 on any error
from it; only a `renderMarkdown` failure is answered with 500.  In the
unnamed file (V2) the handler reads, parses and converts inline and
distinguishes the three failures: read failure is 404, front-matter
parse failure and Markdown conversion failure are 500.

The collaborators are parameters: `read` models `SlugRender.Read`,
`fmParse` models `frontmatter.Parse` (its outputs are the filled
metadata struct and the remaining Markdown), `render` models
`mdRenderer.Convert` with the rich (GFM + highlighting) configuration. -/

/-- An HTTP response produced by the handler: either `ctx.String`
(a plain-text body, carrying no post) or `ctx.HTML`
(a template name plus the assembled post handed to the template). -/
inductive HttpResp (M : Type) where
  | text (status : Nat) (body : GoStr)
  | html (status : Nat) (tmpl : GoStr) (post : M × GoStr)
deriving DecidableEq

/-- Gin's `ctx.String(code, format, values...)` runs the body through
`fmt.Sprintf` when extra values are present; for a format string with no
verbs, `fmt` appends a `%!(EXTRA type=value)` group for each surplus
argument.  `sprintfExtra format arg` models that body: the format text
followed by the EXTRA group rendering the argument. -/
def sprintfExtra (format : GoStr) (arg : GoStr) : GoStr :=
  format ++ ("%!(EXTRA error=".data) ++ arg ++ (")".data)

/-- `readAndParse` of `src/server.go`: run `sl.Read`, then
`frontmatter.Parse` on the content; either failure is returned to the
caller as the same undistinguished `err` value. -/
def readAndParse {M : Type} (read : GoStr → Except GoStr GoStr)
    (fmParse : GoStr → Except GoStr (M × GoStr)) (slug : GoStr) :
    Except GoStr (M × GoStr) :=
  match read slug with
  | .error e => .error e
  | .ok postMarkdown => fmParse postMarkdown

/-- The request handler returned by `PostHandler` in `src/server.go`:
any `readAndParse` error answers `404 "Post not found"`; a
`renderMarkdown` error answers `500 "Error rendering markdown"`; success
renders the `post.html` template with the assembled post (the `Content`
field set to the rendered HTML). -/
def postHandlerV1 {M : Type} (read : GoStr → Except GoStr GoStr)
    (fmParse : GoStr → Except GoStr (M × GoStr))
    (render : GoStr → Except GoStr GoStr) (slug : GoStr) : HttpResp M :=
  match readAndParse read fmParse slug with
  | .error _ => .text 404 ("Post not found".data)
  | .ok (post, remainingMd) =>
    match render remainingMd with
    | .error _ => .text 500 ("Error rendering markdown".data)
    | .ok html => .html 200 ("post.html".data) (post, html)

/-- The request handler returned by `PostHandler` in the unnamed source
file: a `sl.Read` error answers 404 (the error value is passed to
`ctx.String` as a surplus format argument); a `frontmatter.Parse` error
answers 500 (likewise with the error as surplus argument); a conversion
error answers `500 "Error rendering markdown"`; success renders the
`post.html` template with the assembled post. -/
def postHandlerV2 {M : Type} (read : GoStr → Except GoStr GoStr)
    (fmParse : GoStr → Except GoStr (M × GoStr))
    (render : GoStr → Except GoStr GoStr) (slug : GoStr) : HttpResp M :=
  match read slug with
  | .error e => .text 404 (sprintfExtra ("Post not found".data) e)
  | .ok postMarkdown =>
    match fmParse postMarkdown with
    | .error e => .text 500 (sprintfExtra ("Error parsing frontmatter".data) e)
    | .ok (post, remainingMd) =>
      match render remainingMd with
      | .error _ => .text 500 ("Error rendering markdown".data)
      | .ok html => .html 200 ("post.html".data) (post, html)

/-! ## `FileReader.Read` and the path it opens -/

/-- The path opened by `FileReader.Read`: the literal concatenation
`"markdown/" + slug + ".md"` (identical in both source files; no
validation or sanitisation of the slug). -/
def fileReaderPath (slug : GoStr) : GoStr :=
  ("markdown/".data) ++ slug ++ (".md".data)

/-- `FileReader.Read`, over an abstract filesystem `fs` mapping a path to
the joint outcome of `os.Open` + `io.ReadAll` (either error path returns
`("", err)`, embedded as `Except.error`). -/
def fileReaderRead (fs : GoStr → Except GoStr GoStr) (slug : GoStr) :
    Except GoStr GoStr :=
  fs (fileReaderPath slug)

/-- Splits a path on `/` characters into its segments. -/
def pathSegs : GoStr → List GoStr
  | [] => [[]]
  | c :: rest =>
    if c = '/' then [] :: pathSegs rest
    else
      match pathSegs rest with
      | [] => [[c]]
      | l :: ls => (c :: l) :: ls

/-- One step of lexical path resolution: empty and `.` segments vanish,
`..` pops the previous segment when one is available (and is kept when
the path has already escaped above its starting directory). -/
def resolveStep (acc : List GoStr) (seg : GoStr) : List GoStr :=
  if seg = [] ∨ seg = ('.' :: []) then acc
  else if seg = ('.' :: '.' :: []) then
    match acc.getLast? with
    | some last => if last = ('.' :: '.' :: []) then acc ++ [seg] else acc.dropLast
    | none => acc ++ [seg]
  else acc ++ [seg]

/-- Lexical resolution of a relative POSIX path to the list of segments
of the file it designates, relative to the starting directory (a model
of how the operating system resolves `..` segments in the path handed to
`os.Open`). -/
def resolvePath (p : GoStr) : List GoStr :=
  (pathSegs p).foldl resolveStep []

/-! ## The YAML metadata decoder

Modelled from the spec: the third-party decoder (`gopkg.in/yaml.v2`,
reached through `yaml.Unmarshal` and `frontmatter.Parse`) deserialises a
metadata block against the `PostData` schema "using key names as
declared; unknown keys are ignored; missing keys take the field's zero
value".  A well-formed metadata block is embedded as a list of key/value
entries (`YamlVal` values are string scalars, integer scalars or nested
mappings); entries are applied in order to the zero-valued struct, each
recognised key (a declared yaml tag of the matching kind) updating its
field.  A value of the wrong kind for a recognised key is a
Malformed-class error in the real decoder and is out of scope here: the
model leaves the field untouched, and the claims about decoding only
concern well-kinded blocks. -/

/-- A YAML value inside a (well-formed) metadata mapping. -/
inductive YamlVal where
  | str (s : GoStr)
  | int (n : Int)
  | map (entries : List (GoStr × YamlVal))

/-- A parsed metadata block: a YAML mapping from keys to values. -/
abbrev YamlMap := List (GoStr × YamlVal)

def kTitle : GoStr := "Title".data
def kSlug : GoStr := "Slug".data
def kDate : GoStr := "Date".data
def kDescription : GoStr := "Description".data
def kOrder : GoStr := "Order".data
def kMetaDescription : GoStr := "MetaDescription".data
def kMetaPropertyTitle : GoStr := "MetaPropertyTitle".data
def kMetaPropertyDescription : GoStr := "MetaPropertyDescription".data
def kMetaOgURL : GoStr := "MetaOgURL".data
def kAuthor : GoStr := "author".data
def kName : GoStr := "name".data
def kEmail : GoStr := "email".data

/-- One entry of a nested `author` mapping applied to the `Author`
struct (yaml tags `name` and `email`). -/
def applyAuthorEntry (a : Author) (e : GoStr × YamlVal) : Author :=
  match e.2 with
  | .str s =>
    if e.1 = kName then { a with name := s }
    else if e.1 = kEmail then { a with email := s }
    else a
  | _ => a

/-- Decoding a nested `author` mapping into the `Author` struct. -/
def decodeAuthor (m : YamlMap) : Author := m.foldl applyAuthorEntry zeroAuthor

/-- One mapping entry applied to the `src/server.go` `PostData` struct,
following its declared yaml tags (no `Date` tag exists there). -/
def applyEntryV1 (p : PostDataV1) (e : GoStr × YamlVal) : PostDataV1 :=
  match e.2 with
  | .str s =>
    if e.1 = kTitle then { p with Title := s }
    else if e.1 = kSlug then { p with Slug := s }
    else if e.1 = kDescription then { p with Description := s }
    else if e.1 = kMetaDescription then { p with MetaDescription := s }
    else if e.1 = kMetaPropertyTitle then { p with MetaPropertyTitle := s }
    else if e.1 = kMetaPropertyDescription then { p with MetaPropertyDescription := s }
    else if e.1 = kMetaOgURL then { p with MetaOgURL := s }
    else p
  | .int n => if e.1 = kOrder then { p with Order := n } else p
  | .map am =>
    if e.1 = kAuthor then { p with Author := am.foldl applyAuthorEntry p.Author }
    else p

/-- One mapping entry applied to the unnamed file's `PostData` struct,
following its declared yaml tags (including `Date`). -/
def applyEntryV2 (p : PostDataV2) (e : GoStr × YamlVal) : PostDataV2 :=
  match e.2 with
  | .str s =>
    if e.1 = kTitle then { p with Title := s }
    else if e.1 = kSlug then { p with Slug := s }
    else if e.1 = kDate then { p with Date := s }
    else if e.1 = kDescription then { p with Description := s }
    else if e.1 = kMetaDescription then { p with MetaDescription := s }
    else if e.1 = kMetaPropertyTitle then { p with MetaPropertyTitle := s }
    else if e.1 = kMetaPropertyDescription then { p with MetaPropertyDescription := s }
    else if e.1 = kMetaOgURL then { p with MetaOgURL := s }
    else p
  | .int n => if e.1 = kOrder then { p with Order := n } else p
  | .map am =>
    if e.1 = kAuthor then { p with Author := am.foldl applyAuthorEntry p.Author }
    else p

/-- Decoding a well-formed metadata block into the `src/server.go`
`PostData` (zero value plus the entries applied in order). -/
def decodePostV1 (m : YamlMap) : PostDataV1 := m.foldl applyEntryV1 zeroV1

/-- Decoding a well-formed metadata block into the unnamed file's
`PostData`. -/
def decodePostV2 (m : YamlMap) : PostDataV2 := m.foldl applyEntryV2 zeroV2

/-- The yaml tags declared on the unnamed file's `PostData` struct. -/
def recognizedKeysV2 : List GoStr :=
  [kTitle, kSlug, kDate, kDescription, kOrder, kMetaDescription,
   kMetaPropertyTitle, kMetaPropertyDescription, kMetaOgURL, kAuthor]

/-- First value stored at a key of a mapping (the value of the key in a
mapping whose keys are distinct). -/
def lookupKey (k : GoStr) : YamlMap → Option YamlVal
  | [] => none
  | e :: rest => if e.1 = k then some e.2 else lookupKey k rest

/-- The string scalar a well-formed block assigns to key `k`, or the
zero value when the key is absent (the spec-side characterisation a
decoded string field is compared against). -/
def strAt (k : GoStr) (m : YamlMap) : GoStr :=
  match lookupKey k m with
  | some (.str s) => s
  | _ => []

/-- The integer scalar a well-formed block assigns to key `k`, or zero. -/
def intAt (k : GoStr) (m : YamlMap) : Int :=
  match lookupKey k m with
  | some (.int n) => n
  | _ => 0

/-- The decoded author sub-record of a well-formed block, or the zero
author when the `author` key is absent. -/
def authorAt (m : YamlMap) : Author :=
  match lookupKey kAuthor m with
  | some (.map am) => decodeAuthor am
  | _ => zeroAuthor

/-- The error at which processing of a single walk entry aborts, if any:
the walk error, the read error, the YAML decode error or the Markdown
conversion error, in the order the code checks them; `none` when the
entry is processed without failure (or skipped as a non-`.md` entry). -/
def entryError {M : Type} (unmarshal : GoStr → Except GoStr M)
    (convert : GoStr → Except GoStr GoStr) (zero : M) (e : WalkEntry) :
    Option GoStr :=
  match e.walkErr with
  | some err => some err
  | none =>
    if isMdFile e then
      match e.content with
      | .error err => some err
      | .ok content =>
        match processMd unmarshal convert zero content with
        | .error err => some err
        | .ok _ => none
    else none

/-- Spec-side definition for the ordering claim: the listing as the
in-order sequence of per-entry outcomes over exactly the `.md` entries
of the walk, the first failure aborting. -/
def seqPosts {M : Type} (f : WalkEntry → Except GoStr (M × GoStr)) :
    List WalkEntry → Except GoStr (List (M × GoStr))
  | [] => .ok []
  | e :: es =>
    match f e with
    | .error err => .error err
    | .ok p => (seqPosts f es).map (p :: ·)

/-- Spec-side per-entry outcome: read result fed through the per-file
pipeline. -/
def perFilePost {M : Type} (u : GoStr → Except GoStr M)
    (c : GoStr → Except GoStr GoStr) (zero : M) (e : WalkEntry) :
    Except GoStr (M × GoStr) :=
  match e.content with
  | .error err => .error err
  | .ok content => processMd u c zero content

/-- Erasing the `Order` field of a post (used to state that the decoded
`Order` value influences no position in the listing). -/
def stripOrder (p : PostDataV2) : PostDataV2 := { p with Order := 0 }

/-- Erasing the `Order` field throughout a listing outcome. -/
def stripPosts (r : Except GoStr (List (PostDataV2 × GoStr))) :
    Except GoStr (List (PostDataV2 × GoStr)) :=
  r.map (List.map (fun q => (stripOrder q.1, q.2)))

/-- The body block a raw document contributes under the listing
splitter: the part after the first front-matter separator when one
occurs, the whole document otherwise. -/
def bodyOf (content : GoStr) : GoStr :=
  match splitFirst fmDelim content with
  | some pr => pr.2
  | none => content

/-- A valid `.md` walk entry used by witnesses. -/
def entryA : WalkEntry :=
  { name := "a.md".data, isDir := false, walkErr := none,
    content := Except.ok ("hi".data) }

/-- A `.md` walk entry whose read fails, used by witnesses. -/
def entryBad : WalkEntry :=
  { name := "b.md".data, isDir := false, walkErr := none,
    content := Except.error ("read failed".data) }

/-- Another valid `.md` walk entry used by witnesses. -/
def entryC : WalkEntry :=
  { name := "c.md".data, isDir := false, walkErr := none,
    content := Except.ok ("x".data) }

/-- The converter used by witnesses: prepends a character, so non-empty
input gives non-empty output. -/
def cW : GoStr → Except GoStr GoStr := fun s => Except.ok ('<' :: s)

/-- The spec's example metadata block: Title, Slug and Order entries. -/
def exampleBlock : YamlMap :=
  [(kTitle, YamlVal.str ("Test".data)), (kSlug, YamlVal.str ("test".data)),
   (kOrder, YamlVal.int 3)]

/-! ## Helper lemmas about the front-matter splitter -/

theorem linesOf_ne_nil (s : GoStr) : linesOf s ≠ [] := by
  cases s with
  | nil => simp [linesOf]
  | cons c rest =>
    simp only [linesOf]
    split
    · simp
    · split <;> simp

theorem linesOf_newline (t : GoStr) : linesOf ('\n' :: t) = [] :: linesOf t := by
  simp [linesOf]

theorem linesOf_cons_ne (c : Char) (t : GoStr) (hc : ¬ c = '\n') :
    linesOf (c :: t) =
      match linesOf t with
      | [] => [[c]]
      | l :: ls => (c :: l) :: ls := by
  simp [linesOf, hc]

theorem linesOf_dash (t : GoStr) :
    linesOf ('-' :: t) =
      match linesOf t with
      | [] => [['-']]
      | l :: ls => ('-' :: l) :: ls :=
  linesOf_cons_ne '-' t (by decide)

theorem leadsWith_eq (sep : GoStr) :
    ∀ s, leadsWith sep s = true → s = sep ++ s.drop sep.length := by
  induction sep with
  | nil => intro s _; simp
  | cons a as ih =>
    intro s h
    cases s with
    | nil => simp [leadsWith] at h
    | cons c rest =>
      simp only [leadsWith, Bool.and_eq_true, beq_iff_eq] at h
      obtain ⟨hac, h2⟩ := h
      subst hac
      have hr := ih rest h2
      calc a :: rest = a :: (as ++ rest.drop as.length) := by rw [← hr]
        _ = (a :: as) ++ (a :: rest).drop (a :: as).length := by simp

theorem splitFirst_sound (sep : GoStr) :
    ∀ s p q, splitFirst sep s = some (p, q) → s = p ++ sep ++ q := by
  intro s
  induction s with
  | nil =>
    intro p q h
    simp only [splitFirst] at h
    split at h
    · next hl =>
      cases sep with
      | nil => simp_all
      | cons a as => simp [leadsWith] at hl
    · exact absurd h (by simp)
  | cons c rest ih =>
    intro p q h
    simp only [splitFirst] at h
    split at h
    · next hl =>
      have heq := leadsWith_eq sep (c :: rest) hl
      simp only [Option.some.injEq, Prod.mk.injEq] at h
      obtain ⟨hp, hq⟩ := h
      subst hp; subst hq
      simpa using heq
    · cases hsf : splitFirst sep rest with
      | none => rw [hsf] at h; simp at h
      | some pr =>
        rw [hsf] at h
        have hr := ih pr.1 pr.2 (by rw [hsf])
        simp only [Option.map_some', Option.some.injEq, Prod.mk.injEq] at h
        obtain ⟨hp, hq⟩ := h
        subst hp; subst hq
        simp [hr]

/-! ## Helper lemmas about the metadata decoder -/

theorem lookupKey_eq_none (k : GoStr) (m : YamlMap) (h : k ∉ m.map Prod.fst) :
    lookupKey k m = none := by
  induction m with
  | nil => rfl
  | cons e rest ih =>
    simp only [List.map_cons, List.mem_cons] at h
    push_neg at h
    obtain ⟨h1, h2⟩ := h
    have h1x : ¬ e.1 = k := fun hh => h1 hh.symm
    simp [lookupKey, h1x, ih h2]

/-- Characterisation of a tag-directed fold: if `getF` reads a component
that only entries keyed `key` update (through `upd`), then over a block
with distinct keys the folded component is determined by the value at
`key`, if any. -/
theorem foldl_field {P A : Type} (app : P → GoStr × YamlVal → P) (getF : P → A)
    (key : GoStr) (upd : YamlVal → A → A)
    (hpres : ∀ p e, ¬ e.1 = key → getF (app p e) = getF p)
    (hset : ∀ p v, getF (app p (key, v)) = upd v (getF p)) :
    ∀ (m : YamlMap) (p : P), (m.map Prod.fst).Nodup →
      getF (m.foldl app p) =
        match lookupKey key m with
        | some v => upd v (getF p)
        | none => getF p := by
  intro m
  induction m with
  | nil => intro p _; rfl
  | cons e rest ih =>
    intro p hnd
    simp only [List.map_cons, List.nodup_cons] at hnd
    obtain ⟨hnotin, hnd2⟩ := hnd
    by_cases hk : e.1 = key
    · have hlk : lookupKey key (e :: rest) = some e.2 := by simp [lookupKey, hk]
      have hlr : lookupKey key rest = none := lookupKey_eq_none key rest (hk ▸ hnotin)
      have happ : getF (app p e) = upd e.2 (getF p) := by
        have he : app p e = app p (e.1, e.2) := rfl
        rw [he, hk, hset]
      rw [hlk]
      calc getF ((e :: rest).foldl app p) = getF (rest.foldl app (app p e)) := rfl
        _ = match lookupKey key rest with
            | some v => upd v (getF (app p e))
            | none => getF (app p e) := ih (app p e) hnd2
        _ = getF (app p e) := by rw [hlr]
        _ = upd e.2 (getF p) := happ
    · have hlk : lookupKey key (e :: rest) = lookupKey key rest := by simp [lookupKey, hk]
      rw [hlk]
      calc getF ((e :: rest).foldl app p) = getF (rest.foldl app (app p e)) := rfl
        _ = match lookupKey key rest with
            | some v => upd v (getF (app p e))
            | none => getF (app p e) := ih (app p e) hnd2
        _ = match lookupKey key rest with
            | some v => upd v (getF p)
            | none => getF p := by rw [hpres p e hk]

theorem decodeV2_Title (m : YamlMap) (hnd : (m.map Prod.fst).Nodup) :
    (decodePostV2 m).Title = strAt kTitle m := by
  have h := foldl_field applyEntryV2 (fun p => p.Title) kTitle
      (fun v cur => match v with | .str s => s | _ => cur)
      (by
        rintro p ⟨k, v⟩ hne
        cases v with
        | str s =>
          simp only [applyEntryV2]
          split_ifs with h <;> first | rfl | exact absurd h hne
        | int n => simp only [applyEntryV2]; split_ifs <;> rfl
        | map am => simp only [applyEntryV2]; split_ifs <;> rfl)
      (by
        intro p v
        cases v with
        | str s => simp [applyEntryV2]
        | int n =>
          simp only [applyEntryV2]
          rw [if_neg (by decide : ¬ kTitle = kOrder)]
        | map am =>
          simp only [applyEntryV2]
          rw [if_neg (by decide : ¬ kTitle = kAuthor)])
      m zeroV2 hnd
  dsimp only at h
  rw [decodePostV2, h, strAt]
  cases hl : lookupKey kTitle m with
  | none => rfl
  | some v => cases v <;> rfl

theorem decodeAuthor_name (m : YamlMap) (hnd : (m.map Prod.fst).Nodup) :
    (decodeAuthor m).name = strAt kName m := by
  have h := foldl_field applyAuthorEntry (fun a => a.name) kName
      (fun v cur => match v with | .str s => s | _ => cur)
      (by
        rintro a ⟨k, v⟩ hne
        cases v with
        | str s =>
          simp only [applyAuthorEntry]
          split_ifs with h <;> first | rfl | exact absurd h hne
        | int n => rfl
        | map am => rfl)
      (by
        intro a v
        cases v with
        | str s => simp [applyAuthorEntry]
        | int n => rfl
        | map am => rfl)
      m zeroAuthor hnd
  dsimp only at h
  rw [decodeAuthor, h, strAt]
  cases hl : lookupKey kName m with
  | none => rfl
  | some v => cases v <;> rfl

theorem decodeAuthor_email (m : YamlMap) (hnd : (m.map Prod.fst).Nodup) :
    (decodeAuthor m).email = strAt kEmail m := by
  have h := foldl_field applyAuthorEntry (fun a => a.email) kEmail
      (fun v cur => match v with | .str s => s | _ => cur)
      (by
        rintro a ⟨k, v⟩ hne
        cases v with
        | str s =>
          simp only [applyAuthorEntry]
          split_ifs with h <;> first | rfl | exact absurd h hne
        | int n => rfl
        | map am => rfl)
      (by
        intro a v
        cases v with
        | str s =>
          simp only [applyAuthorEntry]
          rw [if_neg (by decide : ¬ kEmail = kName)]
          simp
        | int n => rfl
        | map am => rfl)
      m zeroAuthor hnd
  dsimp only at h
  rw [decodeAuthor, h, strAt]
  cases hl : lookupKey kEmail m with
  | none => rfl
  | some v => cases v <;> rfl

theorem decodeV2_Slug (m : YamlMap) (hnd : (m.map Prod.fst).Nodup) :
    (decodePostV2 m).Slug = strAt kSlug m := by
  have h := foldl_field applyEntryV2 (fun p => p.Slug) kSlug
      (fun v cur => match v with | .str s => s | _ => cur)
      (by
        rintro p ⟨k, v⟩ hne
        cases v with
        | str s =>
          simp only [applyEntryV2]
          split_ifs with h <;> first | rfl | exact absurd h hne
        | int n => simp only [applyEntryV2]; split_ifs <;> rfl
        | map am => simp only [applyEntryV2]; split_ifs <;> rfl)
      (by
        intro p v
        cases v with
        | str s =>
          simp only [applyEntryV2]
          rw [if_neg (by decide : ¬ kSlug = kTitle)]
          simp
        | int n => simp only [applyEntryV2]; split_ifs <;> rfl
        | map am => simp only [applyEntryV2]; split_ifs <;> rfl)
      m zeroV2 hnd
  dsimp only at h
  rw [decodePostV2, h, strAt]
  cases hl : lookupKey kSlug m with
  | none => rfl
  | some v => cases v <;> rfl

theorem decodeV2_Date (m : YamlMap) (hnd : (m.map Prod.fst).Nodup) :
    (decodePostV2 m).Date = strAt kDate m := by
  have h := foldl_field applyEntryV2 (fun p => p.Date) kDate
      (fun v cur => match v with | .str s => s | _ => cur)
      (by
        rintro p ⟨k, v⟩ hne
        cases v with
        | str s =>
          simp only [applyEntryV2]
          split_ifs with h <;> first | rfl | exact absurd h hne
        | int n => simp only [applyEntryV2]; split_ifs <;> rfl
        | map am => simp only [applyEntryV2]; split_ifs <;> rfl)
      (by
        intro p v
        cases v with
        | str s =>
          simp only [applyEntryV2]
          rw [if_neg (by decide : ¬ kDate = kTitle),
              if_neg (by decide : ¬ kDate = kSlug)]
          simp
        | int n => simp only [applyEntryV2]; split_ifs <;> rfl
        | map am => simp only [applyEntryV2]; split_ifs <;> rfl)
      m zeroV2 hnd
  dsimp only at h
  rw [decodePostV2, h, strAt]
  cases hl : lookupKey kDate m with
  | none => rfl
  | some v => cases v <;> rfl

theorem decodeV2_Description (m : YamlMap) (hnd : (m.map Prod.fst).Nodup) :
    (decodePostV2 m).Description = strAt kDescription m := by
  have h := foldl_field applyEntryV2 (fun p => p.Description) kDescription
      (fun v cur => match v with | .str s => s | _ => cur)
      (by
        rintro p ⟨k, v⟩ hne
        cases v with
        | str s =>
          simp only [applyEntryV2]
          split_ifs with h <;> first | rfl | exact absurd h hne
        | int n => simp only [applyEntryV2]; split_ifs <;> rfl
        | map am => simp only [applyEntryV2]; split_ifs <;> rfl)
      (by
        intro p v
        cases v with
        | str s =>
          simp only [applyEntryV2]
          rw [if_neg (by decide : ¬ kDescription = kTitle),
              if_neg (by decide : ¬ kDescription = kSlug),
              if_neg (by decide : ¬ kDescription = kDate)]
          simp
        | int n => simp only [applyEntryV2]; split_ifs <;> rfl
        | map am => simp only [applyEntryV2]; split_ifs <;> rfl)
      m zeroV2 hnd
  dsimp only at h
  rw [decodePostV2, h, strAt]
  cases hl : lookupKey kDescription m with
  | none => rfl
  | some v => cases v <;> rfl

theorem decodeV2_MetaDescription (m : YamlMap) (hnd : (m.map Prod.fst).Nodup) :
    (decodePostV2 m).MetaDescription = strAt kMetaDescription m := by
  have h := foldl_field applyEntryV2 (fun p => p.MetaDescription) kMetaDescription
      (fun v cur => match v with | .str s => s | _ => cur)
      (by
        rintro p ⟨k, v⟩ hne
        cases v with
        | str s =>
          simp only [applyEntryV2]
          split_ifs with h <;> first | rfl | exact absurd h hne
        | int n => simp only [applyEntryV2]; split_ifs <;> rfl
        | map am => simp only [applyEntryV2]; split_ifs <;> rfl)
      (by
        intro p v
        cases v with
        | str s =>
          simp only [applyEntryV2]
          rw [if_neg (by decide : ¬ kMetaDescription = kTitle),
              if_neg (by decide : ¬ kMetaDescription = kSlug),
              if_neg (by decide : ¬ kMetaDescription = kDate),
              if_neg (by decide : ¬ kMetaDescription = kDescription)]
          simp
        | int n => simp only [applyEntryV2]; split_ifs <;> rfl
        | map am => simp only [applyEntryV2]; split_ifs <;> rfl)
      m zeroV2 hnd
  dsimp only at h
  rw [decodePostV2, h, strAt]
  cases hl : lookupKey kMetaDescription m with
  | none => rfl
  | some v => cases v <;> rfl

theorem decodeV2_MetaPropertyTitle (m : YamlMap) (hnd : (m.map Prod.fst).Nodup) :
    (decodePostV2 m).MetaPropertyTitle = strAt kMetaPropertyTitle m := by
  have h := foldl_field applyEntryV2 (fun p => p.MetaPropertyTitle) kMetaPropertyTitle
      (fun v cur => match v with | .str s => s | _ => cur)
      (by
        rintro p ⟨k, v⟩ hne
        cases v with
        | str s =>
          simp only [applyEntryV2]
          split_ifs with h <;> first | rfl | exact absurd h hne
        | int n => simp only [applyEntryV2]; split_ifs <;> rfl
        | map am => simp only [applyEntryV2]; split_ifs <;> rfl)
      (by
        intro p v
        cases v with
        | str s =>
          simp only [applyEntryV2]
          rw [if_neg (by decide : ¬ kMetaPropertyTitle = kTitle),
              if_neg (by decide : ¬ kMetaPropertyTitle = kSlug),
              if_neg (by decide : ¬ kMetaPropertyTitle = kDate),
              if_neg (by decide : ¬ kMetaPropertyTitle = kDescription),
              if_neg (by decide : ¬ kMetaPropertyTitle = kMetaDescription)]
          simp
        | int n => simp only [applyEntryV2]; split_ifs <;> rfl
        | map am => simp only [applyEntryV2]; split_ifs <;> rfl)
      m zeroV2 hnd
  dsimp only at h
  rw [decodePostV2, h, strAt]
  cases hl : lookupKey kMetaPropertyTitle m with
  | none => rfl
  | some v => cases v <;> rfl

theorem decodeV2_MetaPropertyDescription (m : YamlMap) (hnd : (m.map Prod.fst).Nodup) :
    (decodePostV2 m).MetaPropertyDescription = strAt kMetaPropertyDescription m := by
  have h := foldl_field applyEntryV2 (fun p => p.MetaPropertyDescription) kMetaPropertyDescription
      (fun v cur => match v with | .str s => s | _ => cur)
      (by
        rintro p ⟨k, v⟩ hne
        cases v with
        | str s =>
          simp only [applyEntryV2]
          split_ifs with h <;> first | rfl | exact absurd h hne
        | int n => simp only [applyEntryV2]; split_ifs <;> rfl
        | map am => simp only [applyEntryV2]; split_ifs <;> rfl)
      (by
        intro p v
        cases v with
        | str s =>
          simp only [applyEntryV2]
          rw [if_neg (by decide : ¬ kMetaPropertyDescription = kTitle),
              if_neg (by decide : ¬ kMetaPropertyDescription = kSlug),
              if_neg (by decide : ¬ kMetaPropertyDescription = kDate),
              if_neg (by decide : ¬ kMetaPropertyDescription = kDescription),
              if_neg (by decide : ¬ kMetaPropertyDescription = kMetaDescription),
              if_neg (by decide : ¬ kMetaPropertyDescription = kMetaPropertyTitle)]
          simp
        | int n => simp only [applyEntryV2]; split_ifs <;> rfl
        | map am => simp only [applyEntryV2]; split_ifs <;> rfl)
      m zeroV2 hnd
  dsimp only at h
  rw [decodePostV2, h, strAt]
  cases hl : lookupKey kMetaPropertyDescription m with
  | none => rfl
  | some v => cases v <;> rfl

theorem decodeV2_MetaOgURL (m : YamlMap) (hnd : (m.map Prod.fst).Nodup) :
    (decodePostV2 m).MetaOgURL = strAt kMetaOgURL m := by
  have h := foldl_field applyEntryV2 (fun p => p.MetaOgURL) kMetaOgURL
      (fun v cur => match v with | .str s => s | _ => cur)
      (by
        rintro p ⟨k, v⟩ hne
        cases v with
        | str s =>
          simp only [applyEntryV2]
          split_ifs with h <;> first | rfl | exact absurd h hne
        | int n => simp only [applyEntryV2]; split_ifs <;> rfl
        | map am => simp only [applyEntryV2]; split_ifs <;> rfl)
      (by
        intro p v
        cases v with
        | str s =>
          simp only [applyEntryV2]
          rw [if_neg (by decide : ¬ kMetaOgURL = kTitle),
              if_neg (by decide : ¬ kMetaOgURL = kSlug),
              if_neg (by decide : ¬ kMetaOgURL = kDate),
              if_neg (by decide : ¬ kMetaOgURL = kDescription),
              if_neg (by decide : ¬ kMetaOgURL = kMetaDescription),
              if_neg (by decide : ¬ kMetaOgURL = kMetaPropertyTitle),
              if_neg (by decide : ¬ kMetaOgURL = kMetaPropertyDescription)]
          simp
        | int n => simp only [applyEntryV2]; split_ifs <;> rfl
        | map am => simp only [applyEntryV2]; split_ifs <;> rfl)
      m zeroV2 hnd
  dsimp only at h
  rw [decodePostV2, h, strAt]
  cases hl : lookupKey kMetaOgURL m with
  | none => rfl
  | some v => cases v <;> rfl

theorem decodeV2_Order (m : YamlMap) (hnd : (m.map Prod.fst).Nodup) :
    (decodePostV2 m).Order = intAt kOrder m := by
  have h := foldl_field applyEntryV2 (fun p => p.Order) kOrder
      (fun v cur => match v with | .int n => n | _ => cur)
      (by
        rintro p ⟨k, v⟩ hne
        cases v with
        | str s => simp only [applyEntryV2]; split_ifs <;> rfl
        | int n =>
          simp only [applyEntryV2]
          split_ifs with h <;> first | rfl | exact absurd h hne
        | map am => simp only [applyEntryV2]; split_ifs <;> rfl)
      (by
        intro p v
        cases v with
        | str s => simp only [applyEntryV2]; split_ifs <;> rfl
        | int n => simp [applyEntryV2]
        | map am => simp only [applyEntryV2]; split_ifs <;> rfl)
      m zeroV2 hnd
  dsimp only at h
  rw [decodePostV2, h, intAt]
  cases hl : lookupKey kOrder m with
  | none => rfl
  | some v => cases v <;> rfl

theorem decodeV2_Author (m : YamlMap) (hnd : (m.map Prod.fst).Nodup) :
    (decodePostV2 m).Author = authorAt m := by
  have h := foldl_field applyEntryV2 (fun p => p.Author) kAuthor
      (fun v cur => match v with | .map am => am.foldl applyAuthorEntry cur | _ => cur)
      (by
        rintro p ⟨k, v⟩ hne
        cases v with
        | str s => simp only [applyEntryV2]; split_ifs <;> rfl
        | int n => simp only [applyEntryV2]; split_ifs <;> rfl
        | map am =>
          simp only [applyEntryV2]
          split_ifs with h <;> first | rfl | exact absurd h hne)
      (by
        intro p v
        cases v with
        | str s => simp only [applyEntryV2]; split_ifs <;> rfl
        | int n => simp only [applyEntryV2]; split_ifs <;> rfl
        | map am => simp [applyEntryV2])
      m zeroV2 hnd
  dsimp only at h
  rw [decodePostV2, h, authorAt]
  cases hl : lookupKey kAuthor m with
  | none => rfl
  | some v => cases v <;> rfl

theorem applyEntryV2_Content (p : PostDataV2) (e : GoStr × YamlVal) :
    (applyEntryV2 p e).Content = p.Content := by
  obtain ⟨k, v⟩ := e
  cases v with
  | str s => simp only [applyEntryV2]; split_ifs <;> rfl
  | int n => simp only [applyEntryV2]; split_ifs <;> rfl
  | map am => simp only [applyEntryV2]; split_ifs <;> rfl

theorem decodeV2_Content (m : YamlMap) : (decodePostV2 m).Content = [] := by
  suffices h : ∀ p : PostDataV2, (m.foldl applyEntryV2 p).Content = p.Content by
    exact h zeroV2
  induction m with
  | nil => intro p; rfl
  | cons e rest ih =>
    intro p
    rw [List.foldl_cons, ih, applyEntryV2_Content]

theorem decodeV1_Title (m : YamlMap) (hnd : (m.map Prod.fst).Nodup) :
    (decodePostV1 m).Title = strAt kTitle m := by
  have h := foldl_field applyEntryV1 (fun p => p.Title) kTitle
      (fun v cur => match v with | .str s => s | _ => cur)
      (by
        rintro p ⟨k, v⟩ hne
        cases v with
        | str s =>
          simp only [applyEntryV1]
          split_ifs with h <;> first | rfl | exact absurd h hne
        | int n => simp only [applyEntryV1]; split_ifs <;> rfl
        | map am => simp only [applyEntryV1]; split_ifs <;> rfl)
      (by
        intro p v
        cases v with
        | str s => simp [applyEntryV1]
        | int n => simp only [applyEntryV1]; split_ifs <;> rfl
        | map am => simp only [applyEntryV1]; split_ifs <;> rfl)
      m zeroV1 hnd
  dsimp only at h
  rw [decodePostV1, h, strAt]
  cases hl : lookupKey kTitle m with
  | none => rfl
  | some v => cases v <;> rfl

theorem decodeV1_Slug (m : YamlMap) (hnd : (m.map Prod.fst).Nodup) :
    (decodePostV1 m).Slug = strAt kSlug m := by
  have h := foldl_field applyEntryV1 (fun p => p.Slug) kSlug
      (fun v cur => match v with | .str s => s | _ => cur)
      (by
        rintro p ⟨k, v⟩ hne
        cases v with
        | str s =>
          simp only [applyEntryV1]
          split_ifs with h <;> first | rfl | exact absurd h hne
        | int n => simp only [applyEntryV1]; split_ifs <;> rfl
        | map am => simp only [applyEntryV1]; split_ifs <;> rfl)
      (by
        intro p v
        cases v with
        | str s =>
          simp only [applyEntryV1]
          rw [if_neg (by decide : ¬ kSlug = kTitle)]
          simp
        | int n => simp only [applyEntryV1]; split_ifs <;> rfl
        | map am => simp only [applyEntryV1]; split_ifs <;> rfl)
      m zeroV1 hnd
  dsimp only at h
  rw [decodePostV1, h, strAt]
  cases hl : lookupKey kSlug m with
  | none => rfl
  | some v => cases v <;> rfl

theorem decodeV1_Description (m : YamlMap) (hnd : (m.map Prod.fst).Nodup) :
    (decodePostV1 m).Description = strAt kDescription m := by
  have h := foldl_field applyEntryV1 (fun p => p.Description) kDescription
      (fun v cur => match v with | .str s => s | _ => cur)
      (by
        rintro p ⟨k, v⟩ hne
        cases v with
        | str s =>
          simp only [applyEntryV1]
          split_ifs with h <;> first | rfl | exact absurd h hne
        | int n => simp only [applyEntryV1]; split_ifs <;> rfl
        | map am => simp only [applyEntryV1]; split_ifs <;> rfl)
      (by
        intro p v
        cases v with
        | str s =>
          simp only [applyEntryV1]
          rw [if_neg (by decide : ¬ kDescription = kTitle),
              if_neg (by decide : ¬ kDescription = kSlug)]
          simp
        | int n => simp only [applyEntryV1]; split_ifs <;> rfl
        | map am => simp only [applyEntryV1]; split_ifs <;> rfl)
      m zeroV1 hnd
  dsimp only at h
  rw [decodePostV1, h, strAt]
  cases hl : lookupKey kDescription m with
  | none => rfl
  | some v => cases v <;> rfl

theorem decodeV1_MetaDescription (m : YamlMap) (hnd : (m.map Prod.fst).Nodup) :
    (decodePostV1 m).MetaDescription = strAt kMetaDescription m := by
  have h := foldl_field applyEntryV1 (fun p => p.MetaDescription) kMetaDescription
      (fun v cur => match v with | .str s => s | _ => cur)
      (by
        rintro p ⟨k, v⟩ hne
        cases v with
        | str s =>
          simp only [applyEntryV1]
          split_ifs with h <;> first | rfl | exact absurd h hne
        | int n => simp only [applyEntryV1]; split_ifs <;> rfl
        | map am => simp only [applyEntryV1]; split_ifs <;> rfl)
      (by
        intro p v
        cases v with
        | str s =>
          simp only [applyEntryV1]
          rw [if_neg (by decide : ¬ kMetaDescription = kTitle),
              if_neg (by decide : ¬ kMetaDescription = kSlug),
              if_neg (by decide : ¬ kMetaDescription = kDescription)]
          simp
        | int n => simp only [applyEntryV1]; split_ifs <;> rfl
        | map am => simp only [applyEntryV1]; split_ifs <;> rfl)
      m zeroV1 hnd
  dsimp only at h
  rw [decodePostV1, h, strAt]
  cases hl : lookupKey kMetaDescription m with
  | none => rfl
  | some v => cases v <;> rfl

theorem decodeV1_MetaPropertyTitle (m : YamlMap) (hnd : (m.map Prod.fst).Nodup) :
    (decodePostV1 m).MetaPropertyTitle = strAt kMetaPropertyTitle m := by
  have h := foldl_field applyEntryV1 (fun p => p.MetaPropertyTitle) kMetaPropertyTitle
      (fun v cur => match v with | .str s => s | _ => cur)
      (by
        rintro p ⟨k, v⟩ hne
        cases v with
        | str s =>
          simp only [applyEntryV1]
          split_ifs with h <;> first | rfl | exact absurd h hne
        | int n => simp only [applyEntryV1]; split_ifs <;> rfl
        | map am => simp only [applyEntryV1]; split_ifs <;> rfl)
      (by
        intro p v
        cases v with
        | str s =>
          simp only [applyEntryV1]
          rw [if_neg (by decide : ¬ kMetaPropertyTitle = kTitle),
              if_neg (by decide : ¬ kMetaPropertyTitle = kSlug),
              if_neg (by decide : ¬ kMetaPropertyTitle = kDescription),
              if_neg (by decide : ¬ kMetaPropertyTitle = kMetaDescription)]
          simp
        | int n => simp only [applyEntryV1]; split_ifs <;> rfl
        | map am => simp only [applyEntryV1]; split_ifs <;> rfl)
      m zeroV1 hnd
  dsimp only at h
  rw [decodePostV1, h, strAt]
  cases hl : lookupKey kMetaPropertyTitle m with
  | none => rfl
  | some v => cases v <;> rfl

theorem decodeV1_MetaPropertyDescription (m : YamlMap) (hnd : (m.map Prod.fst).Nodup) :
    (decodePostV1 m).MetaPropertyDescription = strAt kMetaPropertyDescription m := by
  have h := foldl_field applyEntryV1 (fun p => p.MetaPropertyDescription) kMetaPropertyDescription
      (fun v cur => match v with | .str s => s | _ => cur)
      (by
        rintro p ⟨k, v⟩ hne
        cases v with
        | str s =>
          simp only [applyEntryV1]
          split_ifs with h <;> first | rfl | exact absurd h hne
        | int n => simp only [applyEntryV1]; split_ifs <;> rfl
        | map am => simp only [applyEntryV1]; split_ifs <;> rfl)
      (by
        intro p v
        cases v with
        | str s =>
          simp only [applyEntryV1]
          rw [if_neg (by decide : ¬ kMetaPropertyDescription = kTitle),
              if_neg (by decide : ¬ kMetaPropertyDescription = kSlug),
              if_neg (by decide : ¬ kMetaPropertyDescription = kDescription),
              if_neg (by decide : ¬ kMetaPropertyDescription = kMetaDescription),
              if_neg (by decide : ¬ kMetaPropertyDescription = kMetaPropertyTitle)]
          simp
        | int n => simp only [applyEntryV1]; split_ifs <;> rfl
        | map am => simp only [applyEntryV1]; split_ifs <;> rfl)
      m zeroV1 hnd
  dsimp only at h
  rw [decodePostV1, h, strAt]
  cases hl : lookupKey kMetaPropertyDescription m with
  | none => rfl
  | some v => cases v <;> rfl

theorem decodeV1_MetaOgURL (m : YamlMap) (hnd : (m.map Prod.fst).Nodup) :
    (decodePostV1 m).MetaOgURL = strAt kMetaOgURL m := by
  have h := foldl_field applyEntryV1 (fun p => p.MetaOgURL) kMetaOgURL
      (fun v cur => match v with | .str s => s | _ => cur)
      (by
        rintro p ⟨k, v⟩ hne
        cases v with
        | str s =>
          simp only [applyEntryV1]
          split_ifs with h <;> first | rfl | exact absurd h hne
        | int n => simp only [applyEntryV1]; split_ifs <;> rfl
        | map am => simp only [applyEntryV1]; split_ifs <;> rfl)
      (by
        intro p v
        cases v with
        | str s =>
          simp only [applyEntryV1]
          rw [if_neg (by decide : ¬ kMetaOgURL = kTitle),
              if_neg (by decide : ¬ kMetaOgURL = kSlug),
              if_neg (by decide : ¬ kMetaOgURL = kDescription),
              if_neg (by decide : ¬ kMetaOgURL = kMetaDescription),
              if_neg (by decide : ¬ kMetaOgURL = kMetaPropertyTitle),
              if_neg (by decide : ¬ kMetaOgURL = kMetaPropertyDescription)]
          simp
        | int n => simp only [applyEntryV1]; split_ifs <;> rfl
        | map am => simp only [applyEntryV1]; split_ifs <;> rfl)
      m zeroV1 hnd
  dsimp only at h
  rw [decodePostV1, h, strAt]
  cases hl : lookupKey kMetaOgURL m with
  | none => rfl
  | some v => cases v <;> rfl

theorem decodeV1_Order (m : YamlMap) (hnd : (m.map Prod.fst).Nodup) :
    (decodePostV1 m).Order = intAt kOrder m := by
  have h := foldl_field applyEntryV1 (fun p => p.Order) kOrder
      (fun v cur => match v with | .int n => n | _ => cur)
      (by
        rintro p ⟨k, v⟩ hne
        cases v with
        | str s => simp only [applyEntryV1]; split_ifs <;> rfl
        | int n =>
          simp only [applyEntryV1]
          split_ifs with h <;> first | rfl | exact absurd h hne
        | map am => simp only [applyEntryV1]; split_ifs <;> rfl)
      (by
        intro p v
        cases v with
        | str s => simp only [applyEntryV1]; split_ifs <;> rfl
        | int n => simp [applyEntryV1]
        | map am => simp only [applyEntryV1]; split_ifs <;> rfl)
      m zeroV1 hnd
  dsimp only at h
  rw [decodePostV1, h, intAt]
  cases hl : lookupKey kOrder m with
  | none => rfl
  | some v => cases v <;> rfl

theorem decodeV1_Author (m : YamlMap) (hnd : (m.map Prod.fst).Nodup) :
    (decodePostV1 m).Author = authorAt m := by
  have h := foldl_field applyEntryV1 (fun p => p.Author) kAuthor
      (fun v cur => match v with | .map am => am.foldl applyAuthorEntry cur | _ => cur)
      (by
        rintro p ⟨k, v⟩ hne
        cases v with
        | str s => simp only [applyEntryV1]; split_ifs <;> rfl
        | int n => simp only [applyEntryV1]; split_ifs <;> rfl
        | map am =>
          simp only [applyEntryV1]
          split_ifs with h <;> first | rfl | exact absurd h hne)
      (by
        intro p v
        cases v with
        | str s => simp only [applyEntryV1]; split_ifs <;> rfl
        | int n => simp only [applyEntryV1]; split_ifs <;> rfl
        | map am => simp [applyEntryV1])
      m zeroV1 hnd
  dsimp only at h
  rw [decodePostV1, h, authorAt]
  cases hl : lookupKey kAuthor m with
  | none => rfl
  | some v => cases v <;> rfl

theorem applyEntryV1_Content (p : PostDataV1) (e : GoStr × YamlVal) :
    (applyEntryV1 p e).Content = p.Content := by
  obtain ⟨k, v⟩ := e
  cases v with
  | str s => simp only [applyEntryV1]; split_ifs <;> rfl
  | int n => simp only [applyEntryV1]; split_ifs <;> rfl
  | map am => simp only [applyEntryV1]; split_ifs <;> rfl

theorem decodeV1_Content (m : YamlMap) : (decodePostV1 m).Content = [] := by
  suffices h : ∀ p : PostDataV1, (m.foldl applyEntryV1 p).Content = p.Content by
    exact h zeroV1
  induction m with
  | nil => intro p; rfl
  | cons e rest ih =>
    intro p
    rw [List.foldl_cons, ih, applyEntryV1_Content]

/-- The Date key updates nothing in the `src/server.go` `PostData`
(there is no `Date` field there): applying a Date entry is the identity. -/
theorem applyEntryV1_date (p : PostDataV1) (v : YamlVal) :
    applyEntryV1 p (kDate, v) = p := by
  cases v with
  | str s =>
    simp only [applyEntryV1]
    rw [if_neg (by decide : ¬ kDate = kTitle),
        if_neg (by decide : ¬ kDate = kSlug),
        if_neg (by decide : ¬ kDate = kDescription),
        if_neg (by decide : ¬ kDate = kMetaDescription),
        if_neg (by decide : ¬ kDate = kMetaPropertyTitle),
        if_neg (by decide : ¬ kDate = kMetaPropertyDescription),
        if_neg (by decide : ¬ kDate = kMetaOgURL)]
  | int n =>
    simp only [applyEntryV1]
    rw [if_neg (by decide : ¬ kDate = kOrder)]
  | map am =>
    simp only [applyEntryV1]
    rw [if_neg (by decide : ¬ kDate = kAuthor)]

/-- A key not among the declared yaml tags updates nothing in the
unnamed file's `PostData`. -/
theorem applyEntryV2_unknown (p : PostDataV2) (k : GoStr) (v : YamlVal)
    (h : k ∉ recognizedKeysV2) : applyEntryV2 p (k, v) = p := by
  simp only [recognizedKeysV2, List.mem_cons, List.not_mem_nil, or_false] at h
  push_neg at h
  obtain ⟨h1, h2, h3, h4, h5, h6, h7, h8, h9, h10⟩ := h
  cases v with
  | str s =>
    simp only [applyEntryV2]
    rw [if_neg h1, if_neg h2, if_neg h3, if_neg h4, if_neg h6,
        if_neg h7, if_neg h8, if_neg h9]
  | int n =>
    simp only [applyEntryV2]
    rw [if_neg h5]
  | map am =>
    simp only [applyEntryV2]
    rw [if_neg h10]

/-! ## Helper lemmas about `loadMarkdownPosts` -/

theorem load_cons_error {M : Type} (u : GoStr → Except GoStr M)
    (c : GoStr → Except GoStr GoStr) (zero : M) (e : WalkEntry)
    (rest : List WalkEntry) (err : GoStr)
    (he : entryError u c zero e = some err) :
    loadMarkdownPosts u c zero (e :: rest) = .error err := by
  simp only [entryError] at he
  simp only [loadMarkdownPosts]
  cases hw : e.walkErr with
  | some w =>
    rw [hw] at he
    simp only [Option.some.injEq] at he
    rw [he]
  | none =>
    rw [hw] at he
    by_cases hmd : isMdFile e = true
    · rw [if_pos hmd] at he
      rw [if_pos hmd]
      cases hc : e.content with
      | error cerr =>
        rw [hc] at he
        simp only [Option.some.injEq] at he
        rw [he]
      | ok content =>
        rw [hc] at he
        simp only at he ⊢
        cases hp : processMd u c zero content with
        | error perr =>
          simp only [hp, Option.some.injEq] at he
          simp only [hp, he]
        | ok p =>
          simp only [hp] at he
          exact absurd he (by simp)
    · rw [if_neg hmd] at he
      simp at he

theorem load_cons_none {M : Type} (u : GoStr → Except GoStr M)
    (c : GoStr → Except GoStr GoStr) (zero : M) (e : WalkEntry)
    (rest : List WalkEntry) (err : GoStr)
    (he : entryError u c zero e = none)
    (hrest : loadMarkdownPosts u c zero rest = .error err) :
    loadMarkdownPosts u c zero (e :: rest) = .error err := by
  simp only [entryError] at he
  simp only [loadMarkdownPosts]
  cases hw : e.walkErr with
  | some w => rw [hw] at he; simp at he
  | none =>
    rw [hw] at he
    by_cases hmd : isMdFile e = true
    · rw [if_pos hmd] at he
      rw [if_pos hmd]
      cases hc : e.content with
      | error cerr => rw [hc] at he; simp at he
      | ok content =>
        rw [hc] at he
        simp only at he ⊢
        cases hp : processMd u c zero content with
        | error perr =>
          simp only [hp] at he
          exact absurd he (by simp)
        | ok p => simp only [hp, hrest]; rfl
    · rw [if_neg hmd]
      exact hrest

theorem load_ok_forall2 {M : Type} (u : GoStr → Except GoStr M)
    (c : GoStr → Except GoStr GoStr) (zero : M) :
    ∀ entries : List WalkEntry,
      (∀ e ∈ entries, entryError u c zero e = none) →
      ∃ l, loadMarkdownPosts u c zero entries = .ok l ∧
        List.Forall₂ (fun (e : WalkEntry) (p : M × GoStr) =>
            ∃ raw, e.content = .ok raw ∧ processMd u c zero raw = .ok p)
          (entries.filter isMdFile) l := by
  intro entries
  induction entries with
  | nil => intro _; exact ⟨[], rfl, List.Forall₂.nil⟩
  | cons e rest ih =>
    intro h
    have he := h e (by simp)
    have hrest := fun f hf => h f (List.mem_cons_of_mem e hf)
    obtain ⟨l, hl, hf⟩ := ih hrest
    simp only [entryError] at he
    cases hw : e.walkErr with
    | some w => rw [hw] at he; simp at he
    | none =>
      rw [hw] at he
      by_cases hmd : isMdFile e = true
      · rw [if_pos hmd] at he
        cases hc : e.content with
        | error cerr => rw [hc] at he; simp at he
        | ok raw =>
          rw [hc] at he
          simp only at he
          cases hp : processMd u c zero raw with
          | error perr => simp only [hp] at he; exact absurd he (by simp)
          | ok p =>
            refine ⟨p :: l, ?_, ?_⟩
            · simp only [loadMarkdownPosts, hw, if_pos hmd, hc, hp, hl]
              rfl
            · rw [List.filter_cons, if_pos hmd]
              exact List.Forall₂.cons ⟨raw, hc, hp⟩ hf
      · refine ⟨l, ?_, ?_⟩
        · simp only [loadMarkdownPosts, hw, if_neg hmd]
          exact hl
        · rw [List.filter_cons, if_neg hmd]
          exact hf

theorem load_eq_seqPosts {M : Type} (u : GoStr → Except GoStr M)
    (c : GoStr → Except GoStr GoStr) (zero : M) :
    ∀ entries : List WalkEntry, (∀ e ∈ entries, e.walkErr = none) →
      loadMarkdownPosts u c zero entries =
        seqPosts (perFilePost u c zero) (entries.filter isMdFile) := by
  intro entries
  induction entries with
  | nil => intro _; rfl
  | cons e rest ih =>
    intro h
    have he := h e (by simp)
    have hrest := ih fun f hf => h f (List.mem_cons_of_mem e hf)
    by_cases hmd : isMdFile e = true
    · rw [List.filter_cons, if_pos hmd]
      cases hc : e.content with
      | error cerr =>
        simp [loadMarkdownPosts, he, hmd, seqPosts, perFilePost, hc]
      | ok content =>
        cases hp : processMd u c zero content with
        | error perr =>
          simp [loadMarkdownPosts, he, hmd, seqPosts, perFilePost, hc, hp]
        | ok p =>
          simp [loadMarkdownPosts, he, hmd, seqPosts, perFilePost, hc, hp, hrest]
    · rw [List.filter_cons, if_neg hmd]
      simp [loadMarkdownPosts, he, hmd, hrest]

theorem processMd_stripOrder (u1 u2 : GoStr → Except GoStr PostDataV2)
    (c : GoStr → Except GoStr GoStr)
    (hu : ∀ s, (u1 s).map stripOrder = (u2 s).map stripOrder) (ct : GoStr) :
    (processMd u1 c zeroV2 ct).map (fun q => (stripOrder q.1, q.2)) =
      (processMd u2 c zeroV2 ct).map (fun q => (stripOrder q.1, q.2)) := by
  unfold processMd
  cases hsf : splitFirst fmDelim ct with
  | none => rfl
  | some pr =>
    obtain ⟨fm, body⟩ := pr
    have h := hu fm
    cases h1 : u1 fm with
    | error e1 =>
      cases h2 : u2 fm with
      | error e2 =>
        rw [h1, h2] at h
        simp only [Except.map, Except.error.injEq] at h
        simp [Except.map, h1, h2, h]
      | ok p2 =>
        rw [h1, h2] at h
        simp [Except.map] at h
    | ok p1 =>
      cases h2 : u2 fm with
      | error e2 =>
        rw [h1, h2] at h
        simp [Except.map] at h
      | ok p2 =>
        rw [h1, h2] at h
        simp only [Except.map, Except.ok.injEq] at h
        cases hc : c body with
        | error cerr => simp [Except.map, h1, h2, hc]
        | ok html => simp [Except.map, h1, h2, hc, h]

theorem load_stripOrder (u1 u2 : GoStr → Except GoStr PostDataV2)
    (c : GoStr → Except GoStr GoStr)
    (hu : ∀ s, (u1 s).map stripOrder = (u2 s).map stripOrder) :
    ∀ entries : List WalkEntry,
      stripPosts (loadMarkdownPosts u1 c zeroV2 entries) =
        stripPosts (loadMarkdownPosts u2 c zeroV2 entries) := by
  intro entries
  induction entries with
  | nil => rfl
  | cons e rest ih =>
    cases hw : e.walkErr with
    | some w => simp [loadMarkdownPosts, hw]
    | none =>
      by_cases hmd : isMdFile e = true
      · cases hc : e.content with
        | error cerr => simp [loadMarkdownPosts, hw, hmd, hc]
        | ok ct =>
          have hps := processMd_stripOrder u1 u2 c hu ct
          cases hp1 : processMd u1 c zeroV2 ct with
          | error e1 =>
            cases hp2 : processMd u2 c zeroV2 ct with
            | error e2 =>
              rw [hp1, hp2] at hps
              simp only [Except.map, Except.error.injEq] at hps
              simp [loadMarkdownPosts, hw, hmd, hc, hp1, hp2, hps]
            | ok q2 =>
              rw [hp1, hp2] at hps
              simp [Except.map] at hps
          | ok q1 =>
            cases hp2 : processMd u2 c zeroV2 ct with
            | error e2 =>
              rw [hp1, hp2] at hps
              simp [Except.map] at hps
            | ok q2 =>
              rw [hp1, hp2] at hps
              simp only [Except.map, Except.ok.injEq] at hps
              simp only [loadMarkdownPosts, hw, hmd, if_pos, hc, hp1, hp2]
              cases hl1 : loadMarkdownPosts u1 c zeroV2 rest with
              | error el1 =>
                cases hl2 : loadMarkdownPosts u2 c zeroV2 rest with
                | error el2 =>
                  rw [hl1, hl2] at ih
                  simp only [stripPosts, Except.map, Except.error.injEq] at ih
                  simp [stripPosts, Except.map, ih]
                | ok l2 =>
                  rw [hl1, hl2] at ih
                  simp [stripPosts, Except.map] at ih
              | ok l1 =>
                cases hl2 : loadMarkdownPosts u2 c zeroV2 rest with
                | error el2 =>
                  rw [hl1, hl2] at ih
                  simp [stripPosts, Except.map] at ih
                | ok l2 =>
                  rw [hl1, hl2] at ih
                  simp only [stripPosts, Except.map, Except.ok.injEq] at ih
                  simp [stripPosts, Except.map, ih, hps]
      · simp [loadMarkdownPosts, hw, hmd, ih]

theorem dashes_mem_tail (b : GoStr) :
    ∀ a : GoStr, dashes ∈ (linesOf (a ++ fmDelim ++ b)).tail := by
  intro a
  induction a with
  | nil =>
    have h0 : linesOf ('\n' :: b) = [] :: linesOf b := linesOf_newline b
    have h1 : linesOf ('-' :: '\n' :: b) = ['-'] :: linesOf b := by
      rw [linesOf_dash, h0]
    have h2 : linesOf ('-' :: '-' :: '\n' :: b) = ('-' :: '-' :: []) :: linesOf b := by
      rw [linesOf_dash, h1]
    have h3 : linesOf ('-' :: '-' :: '-' :: '\n' :: b) = dashes :: linesOf b := by
      rw [linesOf_dash, h2]; rfl
    show dashes ∈ (linesOf (fmDelim ++ b)).tail
    have h4 : fmDelim ++ b = '\n' :: '-' :: '-' :: '-' :: '\n' :: b := rfl
    rw [h4, linesOf_newline, h3]
    simp
  | cons c a ih =>
    have hsplit : (c :: a) ++ fmDelim ++ b = c :: (a ++ fmDelim ++ b) := by
      simp only [List.cons_append]
    rw [hsplit]
    by_cases hc : c = '\n'
    · subst hc
      rw [linesOf_newline]
      simp only [List.tail_cons]
      exact List.mem_of_mem_tail ih
    · have hne := linesOf_ne_nil (a ++ fmDelim ++ b)
      cases hl : linesOf (a ++ fmDelim ++ b) with
      | nil => exact absurd hl hne
      | cons l ls =>
        rw [linesOf_cons_ne c _ hc, hl]
        simp only [List.tail_cons]
        have hm := ih
        rw [hl] at hm
        simpa using hm

theorem processMd_content {M : Type} (u : GoStr → Except GoStr M)
    (c : GoStr → Except GoStr GoStr) (zero : M) (raw : GoStr) (p : M × GoStr)
    (h : processMd u c zero raw = Except.ok p) : c (bodyOf raw) = Except.ok p.2 := by
  unfold processMd at h
  unfold bodyOf
  cases hsf : splitFirst fmDelim raw with
  | none =>
    rw [hsf] at h
    simp only at h
    cases hc : c raw with
    | error cerr => simp [hc] at h
    | ok html =>
      simp only [hc] at h
      cases h
      rfl
  | some pr =>
    obtain ⟨fm, body⟩ := pr
    rw [hsf] at h
    simp only at h
    cases hu : u fm with
    | error uerr => simp [hu] at h
    | ok meta =>
      simp only [hu] at h
      cases hc : c body with
      | error cerr => simp [hc] at h
      | ok html =>
        simp only [hc] at h
        cases h
        rfl

/-! ## Claim theorems -/

/-- Claim C1, counterexample: in the `src/server.go` handler a slug whose
document is read successfully but whose metadata block fails to decode is
answered with HTTP 404 (the undistinguished `readAndParse` error path),
not HTTP 500 as the claim states. -/
theorem claim1_counterexample :
    postHandlerV1 (M := PostDataV1)
      (fun _ => Except.ok ("Title: [".data))
      (fun _ => Except.error ("yaml: malformed".data))
      (fun s => Except.ok s)
      ("a".data) = HttpResp.text 404 ("Post not found".data) := by
  rfl

/-- Claim C1 (amended): when a read succeeds and the metadata decode
fails, the `src/server.go` handler answers 404 with the plain-text body
used for missing posts, while the unnamed file's handler answers 500
with a plain-text body; a failed read is answered 404 by both. -/
theorem claim1_status_codes {M : Type}
    (fmParse : GoStr → Except GoStr (M × GoStr))
    (render : GoStr → Except GoStr GoStr) (slug md e : GoStr)
    (readOk : GoStr → Except GoStr GoStr) (hro : readOk slug = Except.ok md)
    (hpe : fmParse md = Except.error e)
    (readErr : GoStr → Except GoStr GoStr)
    (hre : readErr slug = Except.error e) :
    postHandlerV1 readOk fmParse render slug =
      HttpResp.text 404 ("Post not found".data) ∧
    postHandlerV2 readOk fmParse render slug =
      HttpResp.text 500 (sprintfExtra ("Error parsing frontmatter".data) e) ∧
    postHandlerV1 readErr fmParse render slug =
      HttpResp.text 404 ("Post not found".data) ∧
    postHandlerV2 readErr fmParse render slug =
      HttpResp.text 404 (sprintfExtra ("Post not found".data) e) := by
  refine ⟨?_, ?_, ?_, ?_⟩ <;>
    simp [postHandlerV1, postHandlerV2, readAndParse, hro, hpe, hre]

/-- Witness for C1 at concrete collaborators. -/
theorem claim1_witness :
    postHandlerV1 (M := PostDataV1)
      (fun _ => Except.ok ("x".data))
      (fun _ => Except.error ("bad".data))
      (fun s => Except.ok s) ("a".data) =
      HttpResp.text 404 ("Post not found".data) ∧
    postHandlerV2 (M := PostDataV1) (fun _ => Except.ok ("x".data))
      (fun _ => Except.error ("bad".data))
      (fun s => Except.ok s) ("a".data) =
      HttpResp.text 500 (sprintfExtra ("Error parsing frontmatter".data) ("bad".data)) ∧
    postHandlerV1 (M := PostDataV1) (fun _ => Except.error ("bad".data))
      (fun _ => Except.error ("bad".data))
      (fun s => Except.ok s) ("a".data) =
      HttpResp.text 404 ("Post not found".data) ∧
    postHandlerV2 (M := PostDataV1) (fun _ => Except.error ("bad".data))
      (fun _ => Except.error ("bad".data))
      (fun s => Except.ok s) ("a".data) =
      HttpResp.text 404 (sprintfExtra ("Post not found".data) ("bad".data)) :=
  claim1_status_codes (M := PostDataV1)
    (fun _ => Except.error ("bad".data)) (fun s => Except.ok s)
    ("a".data) ("x".data) ("bad".data)
    (fun _ => Except.ok ("x".data)) rfl rfl
    (fun _ => Except.error ("bad".data)) rfl

/-- Claim C2, counterexample: the document `hello\n---\nworld` contains
exactly one delimiter line, yet the splitter finds the `\n---\n`
separator there, so the decoder IS invoked (on `hello`; the outcome of
the per-file pipeline depends on the decoder) and only `world`, not the
whole document, becomes the body. -/
theorem claim2_counterexample :
    ((linesOf ("hello\n---\nworld".data)).count dashes = 1) ∧
    processMd (fun _ => Except.ok zeroV2) (fun s => Except.ok s) zeroV2
        ("hello\n---\nworld".data) = Except.ok (zeroV2, ("world".data)) ∧
    processMd (fun _ => Except.error ("boom".data)) (fun s => Except.ok s) zeroV2
        ("hello\n---\nworld".data) = Except.error ("boom".data) :=
  ⟨by decide, by rfl, by rfl⟩

/-- Claim C2 (amended): a document whose single delimiter line is its
opening line (an opening delimiter with no closing one) takes the
no-front-matter path: the decoder is not consulted (the result does not
mention it), the metadata is zero-valued and the whole document is
handed to the converter as body. -/
theorem claim2_single_delimiter {M : Type} (unmarshal : GoStr → Except GoStr M)
    (convert : GoStr → Except GoStr GoStr) (zero : M) (doc : GoStr)
    (hhead : (linesOf doc).head? = some dashes)
    (hcount : (linesOf doc).count dashes = 1) :
    processMd unmarshal convert zero doc =
      (convert doc).map (fun html => (zero, html)) := by
  have hnone : splitFirst fmDelim doc = none := by
    cases hsf : splitFirst fmDelim doc with
    | none => rfl
    | some pr =>
      exfalso
      have hd : doc = pr.1 ++ fmDelim ++ pr.2 :=
        splitFirst_sound fmDelim doc pr.1 pr.2 (by rw [hsf])
      have hmem : dashes ∈ (linesOf doc).tail := by
        rw [hd]; exact dashes_mem_tail pr.2 pr.1
      cases hlo : linesOf doc with
      | nil => rw [hlo] at hhead; simp at hhead
      | cons l ls =>
        rw [hlo] at hhead hmem hcount
        simp only [List.head?_cons, Option.some.injEq] at hhead
        simp only [List.tail_cons] at hmem
        subst hhead
        rw [List.count_cons_self] at hcount
        have hpos : 0 < ls.count dashes := List.count_pos_iff.mpr hmem
        omega
  simp only [processMd, hnone]
  cases hc : convert doc <;> simp [Except.map]

/-- Witness for C2 at a concrete document with only an opening
delimiter. -/
theorem claim2_witness :
    ((linesOf ("---\nTitle: x\nbody".data)).head? = some dashes) ∧
    ((linesOf ("---\nTitle: x\nbody".data)).count dashes = 1) ∧
    processMd (fun _ => Except.error ("unused".data)) (fun s => Except.ok s)
        zeroV2 ("---\nTitle: x\nbody".data) =
      Except.ok (zeroV2, ("---\nTitle: x\nbody".data)) :=
  ⟨by decide, by decide, by
    rw [claim2_single_delimiter (fun _ => Except.error ("unused".data))
      (fun s => Except.ok s) zeroV2 ("---\nTitle: x\nbody".data)
      (by decide) (by decide)]
    rfl⟩

/-- Claim C3: one failing document (after a clean prefix of the walk)
makes the whole listing operation return exactly that document's error,
and no list of posts is produced. -/
theorem claim3_all_or_nothing {M : Type} (u : GoStr → Except GoStr M)
    (c : GoStr → Except GoStr GoStr) (zero : M)
    (pre post : List WalkEntry) (e : WalkEntry) (err : GoStr)
    (hpre : ∀ f ∈ pre, entryError u c zero f = none)
    (he : entryError u c zero e = some err) :
    loadMarkdownPosts u c zero (pre ++ e :: post) = Except.error err ∧
    ∀ l, loadMarkdownPosts u c zero (pre ++ e :: post) ≠ Except.ok l := by
  have hmain : ∀ pre2 : List WalkEntry,
      (∀ f ∈ pre2, entryError u c zero f = none) →
      loadMarkdownPosts u c zero (pre2 ++ e :: post) = Except.error err := by
    intro pre2
    induction pre2 with
    | nil => intro _; simpa using load_cons_error u c zero e post err he
    | cons f fs ih =>
      intro hp
      have hf := hp f (by simp)
      have hrest := ih fun g hg => hp g (List.mem_cons_of_mem f hg)
      exact load_cons_none u c zero f (fs ++ e :: post) err hf hrest
  refine ⟨hmain pre hpre, ?_⟩
  intro l hl
  rw [hmain pre hpre] at hl
  exact Except.noConfusion hl

/-- Witness for C3 at a concrete walk. -/
theorem claim3_witness :
    (∀ f ∈ [entryA],
      entryError (fun _ => Except.ok zeroV2) (fun s => Except.ok s) zeroV2 f = none) ∧
    entryError (fun _ => Except.ok zeroV2) (fun s => Except.ok s) zeroV2 entryBad =
      some ("read failed".data) ∧
    loadMarkdownPosts (fun _ => Except.ok zeroV2) (fun s => Except.ok s) zeroV2
        ([entryA] ++ entryBad :: [entryC]) = Except.error ("read failed".data) ∧
    ∀ l, loadMarkdownPosts (fun _ => Except.ok zeroV2) (fun s => Except.ok s) zeroV2
        ([entryA] ++ entryBad :: [entryC]) ≠ Except.ok l :=
  ⟨by decide, by decide,
    (claim3_all_or_nothing _ _ _ [entryA] [entryC] entryBad ("read failed".data)
      (by decide) (by decide)).1,
    (claim3_all_or_nothing _ _ _ [entryA] [entryC] entryBad ("read failed".data)
      (by decide) (by decide)).2⟩

/-- Claim C4, counterexample: a `Date` entry of a metadata block decodes
into no field of the `src/server.go` `PostData` (that struct declares no
`Date` field): the decoded struct stays at its zero value, while the
unnamed file's struct does record the date. -/
theorem claim4_counterexample :
    decodePostV1 [(kDate, YamlVal.str ("2024-01-01".data))] = zeroV1 ∧
    decodePostV2 [(kDate, YamlVal.str ("2024-01-01".data))] ≠ zeroV2 :=
  ⟨by decide, by decide⟩

/-- Claim C4 (amended): over any well-formed metadata block (distinct
keys), the unnamed file's decoder maps every declared key — Title, Slug,
Date, Description, Order, the meta fields and the nested author
name/email — to its field and leaves absent keys zero; keys outside the
declared tags change nothing; the `src/server.go` decoder behaves
identically except that it has no Date field, so a Date entry is ignored
like an unknown key. -/
theorem claim4_decode_matches (m : YamlMap) (hnd : (m.map Prod.fst).Nodup) :
    (decodePostV2 m).Title = strAt kTitle m ∧
    (decodePostV2 m).Slug = strAt kSlug m ∧
    (decodePostV2 m).Date = strAt kDate m ∧
    (decodePostV2 m).Description = strAt kDescription m ∧
    (decodePostV2 m).Order = intAt kOrder m ∧
    (decodePostV2 m).MetaDescription = strAt kMetaDescription m ∧
    (decodePostV2 m).MetaPropertyTitle = strAt kMetaPropertyTitle m ∧
    (decodePostV2 m).MetaPropertyDescription = strAt kMetaPropertyDescription m ∧
    (decodePostV2 m).MetaOgURL = strAt kMetaOgURL m ∧
    (decodePostV2 m).Author = authorAt m ∧
    (decodePostV2 m).Content = [] ∧
    (∀ am : YamlMap, (am.map Prod.fst).Nodup →
      (decodeAuthor am).name = strAt kName am ∧
      (decodeAuthor am).email = strAt kEmail am) ∧
    (∀ k v, k ∉ recognizedKeysV2 → decodePostV2 ((k, v) :: m) = decodePostV2 m) ∧
    (∀ v, decodePostV1 ((kDate, v) :: m) = decodePostV1 m) ∧
    (decodePostV1 m).Title = strAt kTitle m ∧
    (decodePostV1 m).Slug = strAt kSlug m ∧
    (decodePostV1 m).Description = strAt kDescription m ∧
    (decodePostV1 m).Order = intAt kOrder m ∧
    (decodePostV1 m).MetaDescription = strAt kMetaDescription m ∧
    (decodePostV1 m).MetaPropertyTitle = strAt kMetaPropertyTitle m ∧
    (decodePostV1 m).MetaPropertyDescription = strAt kMetaPropertyDescription m ∧
    (decodePostV1 m).MetaOgURL = strAt kMetaOgURL m ∧
    (decodePostV1 m).Author = authorAt m ∧
    (decodePostV1 m).Content = [] := by
  refine ⟨decodeV2_Title m hnd, decodeV2_Slug m hnd, decodeV2_Date m hnd,
    decodeV2_Description m hnd, decodeV2_Order m hnd, decodeV2_MetaDescription m hnd,
    decodeV2_MetaPropertyTitle m hnd, decodeV2_MetaPropertyDescription m hnd,
    decodeV2_MetaOgURL m hnd, decodeV2_Author m hnd, decodeV2_Content m,
    ?_, ?_, ?_,
    decodeV1_Title m hnd, decodeV1_Slug m hnd, decodeV1_Description m hnd,
    decodeV1_Order m hnd, decodeV1_MetaDescription m hnd,
    decodeV1_MetaPropertyTitle m hnd, decodeV1_MetaPropertyDescription m hnd,
    decodeV1_MetaOgURL m hnd, decodeV1_Author m hnd, decodeV1_Content m⟩
  · intro am hnda
    exact ⟨decodeAuthor_name am hnda, decodeAuthor_email am hnda⟩
  · intro k v hk
    rw [decodePostV2, decodePostV2, List.foldl_cons, applyEntryV2_unknown zeroV2 k v hk]
  · intro v
    rw [decodePostV1, decodePostV1, List.foldl_cons, applyEntryV1_date]

/-- Witness for C4 at the spec's example block. -/
theorem claim4_witness :
    ((exampleBlock.map Prod.fst).Nodup) ∧
    ((decodePostV2 exampleBlock).Title = strAt kTitle exampleBlock ∧
    (decodePostV2 exampleBlock).Slug = strAt kSlug exampleBlock ∧
    (decodePostV2 exampleBlock).Date = strAt kDate exampleBlock ∧
    (decodePostV2 exampleBlock).Description = strAt kDescription exampleBlock ∧
    (decodePostV2 exampleBlock).Order = intAt kOrder exampleBlock ∧
    (decodePostV2 exampleBlock).MetaDescription = strAt kMetaDescription exampleBlock ∧
    (decodePostV2 exampleBlock).MetaPropertyTitle = strAt kMetaPropertyTitle exampleBlock ∧
    (decodePostV2 exampleBlock).MetaPropertyDescription =
      strAt kMetaPropertyDescription exampleBlock ∧
    (decodePostV2 exampleBlock).MetaOgURL = strAt kMetaOgURL exampleBlock ∧
    (decodePostV2 exampleBlock).Author = authorAt exampleBlock ∧
    (decodePostV2 exampleBlock).Content = [] ∧
    (∀ am : YamlMap, (am.map Prod.fst).Nodup →
      (decodeAuthor am).name = strAt kName am ∧
      (decodeAuthor am).email = strAt kEmail am) ∧
    (∀ k v, k ∉ recognizedKeysV2 →
      decodePostV2 ((k, v) :: exampleBlock) = decodePostV2 exampleBlock) ∧
    (∀ v, decodePostV1 ((kDate, v) :: exampleBlock) = decodePostV1 exampleBlock) ∧
    (decodePostV1 exampleBlock).Title = strAt kTitle exampleBlock ∧
    (decodePostV1 exampleBlock).Slug = strAt kSlug exampleBlock ∧
    (decodePostV1 exampleBlock).Description = strAt kDescription exampleBlock ∧
    (decodePostV1 exampleBlock).Order = intAt kOrder exampleBlock ∧
    (decodePostV1 exampleBlock).MetaDescription = strAt kMetaDescription exampleBlock ∧
    (decodePostV1 exampleBlock).MetaPropertyTitle = strAt kMetaPropertyTitle exampleBlock ∧
    (decodePostV1 exampleBlock).MetaPropertyDescription =
      strAt kMetaPropertyDescription exampleBlock ∧
    (decodePostV1 exampleBlock).MetaOgURL = strAt kMetaOgURL exampleBlock ∧
    (decodePostV1 exampleBlock).Author = authorAt exampleBlock ∧
    (decodePostV1 exampleBlock).Content = []) :=
  ⟨by decide, claim4_decode_matches exampleBlock (by decide)⟩

/-- Claim C5: a walk over entries that all process cleanly yields a list
of posts whose length is exactly the number of `.md` files, and — when
the converter turns non-empty bodies into non-empty HTML, as the
Markdown renderer does — every post whose source body block is non-empty
carries non-empty rendered content. -/
theorem claim5_listing_count {M : Type} (u : GoStr → Except GoStr M)
    (c : GoStr → Except GoStr GoStr) (zero : M) (entries : List WalkEntry)
    (hok : ∀ e ∈ entries, entryError u c zero e = none)
    (hconv : ∀ s : GoStr, s ≠ [] → ∀ h, c s = Except.ok h → h ≠ []) :
    ∃ l, loadMarkdownPosts u c zero entries = Except.ok l ∧
      l.length = (entries.filter isMdFile).length ∧
      List.Forall₂ (fun (e : WalkEntry) (p : M × GoStr) =>
          ∀ raw, e.content = Except.ok raw → bodyOf raw ≠ [] → p.2 ≠ [])
        (entries.filter isMdFile) l := by
  obtain ⟨l, hl, hf⟩ := load_ok_forall2 u c zero entries hok
  refine ⟨l, hl, (List.Forall₂.length_eq hf).symm, List.Forall₂.imp ?_ hf⟩
  rintro e p ⟨raw, hc, hp⟩ raw2 hc2 hb
  rw [hc] at hc2
  injection hc2 with hraw
  subst hraw
  exact hconv (bodyOf raw) hb p.2 (processMd_content u c zero raw p hp)

theorem cW_nonempty : ∀ s : GoStr, s ≠ [] → ∀ h, cW s = Except.ok h → h ≠ [] := by
  intro s _ h hh
  simp only [cW, Except.ok.injEq] at hh
  subst hh
  simp

/-- Witness for C5 at a concrete two-file walk. -/
theorem claim5_witness :
    (∀ e ∈ [entryA, entryC],
      entryError (fun _ => Except.ok zeroV2) cW zeroV2 e = none) ∧
    (∀ s : GoStr, s ≠ [] → ∀ h, cW s = Except.ok h → h ≠ []) ∧
    ∃ l, loadMarkdownPosts (fun _ => Except.ok zeroV2) cW zeroV2 [entryA, entryC] =
        Except.ok l ∧
      l.length = ([entryA, entryC].filter isMdFile).length ∧
      List.Forall₂ (fun (e : WalkEntry) (p : PostDataV2 × GoStr) =>
          ∀ raw, e.content = Except.ok raw → bodyOf raw ≠ [] → p.2 ≠ [])
        ([entryA, entryC].filter isMdFile) l :=
  ⟨by decide, cW_nonempty,
    claim5_listing_count (fun _ => Except.ok zeroV2) cW zeroV2 [entryA, entryC]
      (by decide) cW_nonempty⟩

/-- Claim C6: the listing is exactly the in-order sequence of per-file
results over the `.md` entries in walk-traversal order, and decoders
that differ only in the `Order` values they produce yield listings that
agree everywhere except in that field — in particular every post keeps
its position, so `Order` influences no position. -/
theorem claim6_traversal_order (u1 u2 : GoStr → Except GoStr PostDataV2)
    (c : GoStr → Except GoStr GoStr) (entries : List WalkEntry)
    (hw : ∀ e ∈ entries, e.walkErr = none)
    (hu : ∀ s, (u1 s).map stripOrder = (u2 s).map stripOrder) :
    loadMarkdownPosts u1 c zeroV2 entries =
      seqPosts (perFilePost u1 c zeroV2) (entries.filter isMdFile) ∧
    stripPosts (loadMarkdownPosts u1 c zeroV2 entries) =
      stripPosts (loadMarkdownPosts u2 c zeroV2 entries) :=
  ⟨load_eq_seqPosts u1 c zeroV2 entries hw, load_stripOrder u1 u2 c hu entries⟩

/-- Witness for C6: two decoders differing only in the Order they
assign. -/
theorem claim6_witness :
    (∀ e ∈ [entryA, entryC], e.walkErr = none) ∧
    (∀ s : GoStr, ((fun _ => Except.ok zeroV2 : GoStr → Except GoStr PostDataV2) s).map
        stripOrder =
      ((fun _ => Except.ok { zeroV2 with Order := 42 } :
          GoStr → Except GoStr PostDataV2) s).map stripOrder) ∧
    loadMarkdownPosts (fun _ => Except.ok zeroV2) cW zeroV2 [entryA, entryC] =
      seqPosts (perFilePost (fun _ => Except.ok zeroV2) cW zeroV2)
        ([entryA, entryC].filter isMdFile) ∧
    stripPosts (loadMarkdownPosts (fun _ => Except.ok zeroV2) cW zeroV2
        [entryA, entryC]) =
      stripPosts (loadMarkdownPosts (fun _ => Except.ok { zeroV2 with Order := 42 })
        cW zeroV2 [entryA, entryC]) :=
  ⟨by decide, fun _ => rfl,
    (claim6_traversal_order (fun _ => Except.ok zeroV2)
      (fun _ => Except.ok { zeroV2 with Order := 42 }) cW [entryA, entryC]
      (by decide) (fun _ => rfl)).1,
    (claim6_traversal_order (fun _ => Except.ok zeroV2)
      (fun _ => Except.ok { zeroV2 with Order := 42 }) cW [entryA, entryC]
      (by decide) (fun _ => rfl)).2⟩

/-- Claim C7: a slug whose read fails is answered 404 with a plain-text
body by both handlers, and no assembled post reaches the template: the
response is never the html form, which is the only response carrying a
post. -/
theorem claim7_missing_slug {M : Type} (read : GoStr → Except GoStr GoStr)
    (fmParse : GoStr → Except GoStr (M × GoStr))
    (render : GoStr → Except GoStr GoStr) (slug e : GoStr)
    (h : read slug = Except.error e) :
    postHandlerV1 read fmParse render slug =
      HttpResp.text 404 ("Post not found".data) ∧
    postHandlerV2 read fmParse render slug =
      HttpResp.text 404 (sprintfExtra ("Post not found".data) e) ∧
    (∀ st t p, postHandlerV1 read fmParse render slug ≠ HttpResp.html st t p) ∧
    (∀ st t p, postHandlerV2 read fmParse render slug ≠ HttpResp.html st t p) := by
  refine ⟨?_, ?_, ?_, ?_⟩ <;> simp [postHandlerV1, postHandlerV2, readAndParse, h]

/-- Witness for C7 at a concrete failing read. -/
theorem claim7_witness :
    ((fun _ => Except.error ("no such file".data) : GoStr → Except GoStr GoStr)
        ("nope".data) = Except.error ("no such file".data)) ∧
    postHandlerV1 (M := PostDataV1) (fun _ => Except.error ("no such file".data))
        (fun s => Except.error s) (fun s => Except.ok s) ("nope".data) =
      HttpResp.text 404 ("Post not found".data) ∧
    postHandlerV2 (M := PostDataV1) (fun _ => Except.error ("no such file".data))
        (fun s => Except.error s) (fun s => Except.ok s) ("nope".data) =
      HttpResp.text 404 (sprintfExtra ("Post not found".data) ("no such file".data)) :=
  ⟨rfl,
    (claim7_missing_slug (M := PostDataV1) _ (fun s => Except.error s)
      (fun s => Except.ok s) ("nope".data) ("no such file".data) rfl).1,
    (claim7_missing_slug (M := PostDataV1) _ (fun s => Except.error s)
      (fun s => Except.ok s) ("nope".data) ("no such file".data) rfl).2.1⟩

/-- Claim C8: the handler response is a function of the slug's read
outcome alone — two environments agreeing on what `Read` returns for the
slug produce byte-identical responses (the per-request buffer is fresh
and no other state is consulted), for both handlers. -/
theorem claim8_deterministic {M : Type} (read1 read2 : GoStr → Except GoStr GoStr)
    (fmParse : GoStr → Except GoStr (M × GoStr))
    (render : GoStr → Except GoStr GoStr) (slug : GoStr)
    (h : read1 slug = read2 slug) :
    postHandlerV1 read1 fmParse render slug = postHandlerV1 read2 fmParse render slug ∧
    postHandlerV2 read1 fmParse render slug = postHandlerV2 read2 fmParse render slug := by
  unfold postHandlerV1 postHandlerV2 readAndParse
  rw [h]
  exact ⟨rfl, rfl⟩

/-- Witness for C8 at two reads agreeing on the requested slug. -/
theorem claim8_witness :
    ((fun _ => Except.ok ("# T".data) : GoStr → Except GoStr GoStr) ("a".data) =
      (fun _ => Except.ok ("# T".data) : GoStr → Except GoStr GoStr) ("a".data)) ∧
    postHandlerV1 (M := PostDataV1) (fun _ => Except.ok ("# T".data))
        (fun s => Except.ok (zeroV1, s)) (fun s => Except.ok s) ("a".data) =
      postHandlerV1 (fun _ => Except.ok ("# T".data))
        (fun s => Except.ok (zeroV1, s)) (fun s => Except.ok s) ("a".data) :=
  ⟨rfl,
    (claim8_deterministic (fun _ => Except.ok ("# T".data))
      (fun _ => Except.ok ("# T".data)) (fun s => Except.ok (zeroV1, s))
      (fun s => Except.ok s) ("a".data) rfl).1⟩

/-- Claim C9: `FileReader.Read` consults exactly the path
`"markdown/" + slug + ".md"`, with no validation: the empty slug yields
`markdown/.md`, and a slug with a parent-directory segment resolves to a
file outside the markdown directory. -/
theorem claim9_read_path (fs : GoStr → Except GoStr GoStr) (slug : GoStr) :
    fileReaderRead fs slug = fs (("markdown/".data) ++ slug ++ (".md".data)) ∧
    fileReaderPath [] = ("markdown/.md".data) ∧
    resolvePath (fileReaderPath ("../secret".data)) = [("secret.md".data)] ∧
    (resolvePath (fileReaderPath ("../secret".data))).head? ≠
      some ("markdown".data) :=
  ⟨rfl, by decide, by decide, by decide⟩

/-- Claim C10, counterexample: in the unnamed file's handler the 404
body is not exactly `Post not found` — the error value is passed to
`ctx.String` as a surplus format argument, so `fmt` appends an EXTRA
group to the body. -/
theorem claim10_counterexample :
    postHandlerV2 (M := PostDataV2)
      (fun _ => Except.error ("open markdown/a.md: permission denied".data))
      (fun s => Except.ok (zeroV2, s))
      (fun s => Except.ok s) ("a".data) =
      HttpResp.text 404 (sprintfExtra ("Post not found".data)
        ("open markdown/a.md: permission denied".data)) ∧
    sprintfExtra ("Post not found".data)
        ("open markdown/a.md: permission denied".data) ≠ ("Post not found".data) :=
  ⟨rfl, by decide⟩

/-- Claim C10 (amended): every Read error — file absence, permission
failure or any other IO error — is answered 404 by both handlers, with
body exactly `Post not found` in `src/server.go` and `Post not found`
plus the EXTRA formatting group in the unnamed file; no Read error is
ever answered 500. -/
theorem claim10_read_errors {M : Type} (read : GoStr → Except GoStr GoStr)
    (fmParse : GoStr → Except GoStr (M × GoStr))
    (render : GoStr → Except GoStr GoStr) (slug e : GoStr)
    (h : read slug = Except.error e) :
    postHandlerV1 read fmParse render slug =
      HttpResp.text 404 ("Post not found".data) ∧
    postHandlerV2 read fmParse render slug =
      HttpResp.text 404 (sprintfExtra ("Post not found".data) e) ∧
    (∀ b, postHandlerV1 read fmParse render slug ≠ HttpResp.text 500 b) ∧
    (∀ b, postHandlerV2 read fmParse render slug ≠ HttpResp.text 500 b) := by
  refine ⟨?_, ?_, ?_, ?_⟩ <;> simp [postHandlerV1, postHandlerV2, readAndParse, h]

/-- Witness for C10 at a concrete permission error. -/
theorem claim10_witness :
    ((fun _ => Except.error ("permission denied".data) : GoStr → Except GoStr GoStr)
        ("a".data) = Except.error ("permission denied".data)) ∧
    postHandlerV1 (M := PostDataV1) (fun _ => Except.error ("permission denied".data))
        (fun s => Except.error s) (fun s => Except.ok s) ("a".data) =
      HttpResp.text 404 ("Post not found".data) ∧
    (∀ b, postHandlerV1 (M := PostDataV1)
        (fun _ => Except.error ("permission denied".data))
        (fun s => Except.error s) (fun s => Except.ok s) ("a".data) ≠
      HttpResp.text 500 b) :=
  ⟨rfl,
    (claim10_read_errors (M := PostDataV1) _ (fun s => Except.error s)
      (fun s => Except.ok s) ("a".data) ("permission denied".data) rfl).1,
    (claim10_read_errors (M := PostDataV1) _ (fun s => Except.error s)
      (fun s => Except.ok s) ("a".data) ("permission denied".data) rfl).2.2.1⟩
